import Mathlib

/-!
Verification of the antibody variable-domain region annotator.

The development shallowly embeds the two algorithmic modules of the
repository:

* `analyzeSequence` — the anchor-based region annotator (anchor detection,
  scheme-specific boundary derivation, fallback proportional model, region
  segmentation and per-residue numbering);
* `parseRegions` / `calculateHumanness` — the independent humanness /
  physicochemical module together with its amino-acid property table and
  reference germline sequences.

Sequences are modelled as `List Char`; JavaScript machine numbers used as
indices are modelled as `Int` with the source's `-1` "not found" sentinels;
fractional scores are modelled as `ℚ`.  JavaScript string primitives
(`substring`, `indexOf`, `lastIndexOf`, out-of-range indexing yielding
`undefined`) are given explicit models below.
-/

/-- The three numbering conventions accepted by the annotator. -/
inductive Scheme where
  | IMGT
  | Kabat
  | Chothia
deriving DecidableEq

/-- One annotated region: mirrors the source's `Region` record
(`type`, `start`, `end`, `seq`, `color`, `name`). -/
structure Region where
  type : String
  start : Int
  «end» : Int
  seq : List Char
  color : String
  name : String
deriving DecidableEq

/-- One per-residue numbering entry: mirrors the source's `NumberingItem`
(`index`, `aa`, `region`, `color`).  `aa` is `none` when the source reads
`sequence[i]` out of range (JavaScript `undefined`). -/
structure NumberingItem where
  index : Int
  aa : Option Char
  region : String
  color : String
deriving DecidableEq

/-- The six boundary cut-points computed by the boundary calculator. -/
structure Bounds where
  fr1_end : Int
  cdr1_end : Int
  fr2_end : Int
  cdr2_end : Int
  fr3_end : Int
  cdr3_end : Int
deriving DecidableEq

/-- The value returned by `analyzeSequence`. -/
structure AnalysisResult where
  regions : List Region
  numbering : List NumberingItem
  score : ℚ
  reasoning : List String
  sequence : List Char
  scheme : Scheme

/-- JavaScript `s.toUpperCase()` on a single ASCII character: lowercase
letters map to uppercase, everything else is unchanged. -/
def jsToUpper (c : Char) : Char :=
  if 'a' ≤ c ∧ c ≤ 'z' then Char.ofNat (c.toNat - 32) else c

/-- The character class `[A-Z]` of the source's cleaning regex. -/
def isLetterAZ (c : Char) : Bool :=
  'A' ≤ c && c ≤ 'Z'

/-- `seq.toUpperCase().replace(/[^A-Z]/g, '')` — the input normalization
performed at the top of `analyzeSequence`. -/
def cleanSeq (s : List Char) : List Char :=
  (s.map jsToUpper).filter isLetterAZ

/-- JavaScript character read `s[i]`: `none` (i.e. `undefined`) when `i` is
out of range, including negative `i`. -/
def charAt? (s : List Char) (i : Int) : Option Char :=
  if i < 0 then none else s[i.toNat]?

/-- JavaScript `String.prototype.substring(a, b)`: both arguments are
clamped into `[0, length]` and swapped when `a > b`. -/
def jsSubstring (s : List Char) (a b : Int) : List Char :=
  let len : Int := s.length
  let a' := min (max a 0) len
  let b' := min (max b 0) len
  let lo := min a' b'
  let hi := max a' b'
  (s.take hi.toNat).drop lo.toNat

/-- JavaScript `s.indexOf(c)` scanning the tail `rest` of the sequence,
`i` being the absolute index of the head of `rest`. -/
def jsIndexOfAux (rest : List Char) (c : Char) (i : Nat) : Int :=
  match rest with
  | [] => -1
  | x :: xs => if x = c then (i : Int) else jsIndexOfAux xs c (i + 1)

/-- JavaScript `s.indexOf(c)`: index of the first occurrence of `c`,
`-1` when absent. -/
def jsIndexOfChar (s : List Char) (c : Char) : Int :=
  jsIndexOfAux s c 0

/-- JavaScript `s.lastIndexOf(c)` for a single character: index of the last
occurrence of `c`, `-1` when absent. -/
def jsLastIndexOfChar (s : List Char) (c : Char) : Int :=
  match ((List.range s.length).filter (fun i => s[i]? = some c)).getLast? with
  | some i => (i : Int)
  | none => -1

/-- JavaScript `s.lastIndexOf("WG")`: start index of the last occurrence of
the two-character substring `"WG"`, `-1` when absent. -/
def jsLastIndexOfWG (s : List Char) : Int :=
  match ((List.range s.length).filter
      (fun i => s[i]? = some 'W' && s[i + 1]? = some 'G')).getLast? with
  | some i => (i : Int)
  | none => -1

/-- A (possibly overlapping) match of the J-region regex `[WF]G.G` starting
at index `i`.  After cleaning, every character is in `A`–`Z`, so the regex
metacharacter `.` matches any character; the length-4 pattern must fit
inside the sequence. -/
def isFr4MatchAt (s : List Char) (i : Nat) : Bool :=
  decide (i + 4 ≤ s.length) &&
    (s[i]? = some 'W' || s[i]? = some 'F') &&
    (s[i + 1]? = some 'G') && (s[i + 3]? = some 'G')

/-- All match start positions of `[WF]G.G`, in ascending order. -/
def allFr4MatchIndices (s : List Char) : List Nat :=
  (List.range s.length).filter (isFr4MatchAt s)

/-- The non-overlapping selection performed by the source's
`while ((match = fr4Regex.exec(sequence)) !== null)` loop: from the
ascending list of all match positions, repeatedly take the first match
starting at or after the current `lastIndex` and advance `lastIndex` past
its four characters. -/
def scanNonOverlapping : Nat → List Nat → List Nat
  | _, [] => []
  | p, i :: rest =>
    if p ≤ i then i :: scanNonOverlapping (i + 4) rest
    else scanNonOverlapping p rest

/-- The match positions actually visited by the source's regex loop. -/
def fr4Matches (s : List Char) : List Nat :=
  scanNonOverlapping 0 (allFr4MatchIndices s)

/-- Fuel-driven base-2 logarithm: `natLog2Aux fuel n` is the floor of
`log₂ n` for `n ≥ 1` whenever `fuel ≥ n` (the recursion halves `n`, so
it stops long before the fuel runs out); structural fuel keeps kernel
evaluation possible. -/
def natLog2Aux : Nat → Nat → Nat
  | 0, _ => 0
  | fuel + 1, n => if 2 ≤ n then natLog2Aux fuel (n / 2) + 1 else 0

/-- Floor of `log₂ n` (0 for `n = 0`). -/
def natLog2 (n : Nat) : Nat :=
  natLog2Aux n n

/-- The numerator of the IEEE-754 double nearest to the literal `0.7`:
`fl(0.7) = 3152519739159347 / 2^52 = 0.69999999999999995559…`. -/
def fl07Numerator : Nat := 3152519739159347

/-- The JavaScript product `len * 0.7` as an exact rational, represented
by its numerator over `2^52`.  The exact product
`len · fl(0.7) = (fl07Numerator · len) / 2^52` is rounded to 53
significant bits, round-to-nearest with ties-to-even — exactly the one
correctly rounded double multiplication the source performs (`len` is a
string length, hence itself an exact double; the product stays far from
the overflow and subnormal ranges). -/
def jsLenTimes07Num (len : Nat) : Nat :=
  let N := fl07Numerator * len
  if N = 0 then 0
  else
    let L := natLog2 N
    if L ≤ 52 then N
    else
      let k := L - 52
      let m0 := N / 2 ^ k
      let r := N % 2 ^ k
      let half := 2 ^ (k - 1)
      let m := if r < half then m0
        else if r > half then m0 + 1
        else if m0 % 2 = 0 then m0 else m0 + 1
      m * 2 ^ k

/-- The source's qualifying test `match.index > len * 0.7`, compared the
way JavaScript compares the two doubles: the integer match index (exact
as a double) against the rounded product, both scaled by `2^52`.  This
differs from the exact-rational comparison `10 · i > 7 · len` at lengths
90, 170, 180, 330, …, where the rounded product falls just below the
exact value `0.7 · len`. -/
def fr4PastCutoff (len i : Nat) : Bool :=
  decide (i * 2 ^ 52 > jsLenTimes07Num len)

/-- `fr4Index`: the loop keeps overwriting `fr4Index` with every visited
match whose index satisfies the double comparison
`match.index > len * 0.7`, so the final value is the last qualifying
visited match (`-1` when none qualifies). -/
def fr4IndexOf (s : List Char) : Int :=
  match ((fr4Matches s).filter (fun i => fr4PastCutoff s.length i)).getLast? with
  | some i => (i : Int)
  | none => -1

/-- The backward scan of the `c104Index` search:
`for (let i = searchEnd - 1; i >= searchStart; i--)` returning the first
`'C'` found.  `fuel` is the number of loop iterations still to run
(`i - searchStart + 1` at loop entry), so the scan visits exactly the
indices `i, i - 1, …, searchStart`. -/
def scanBackForC (s : List Char) (fuel i : Nat) : Int :=
  match fuel with
  | 0 => -1
  | f + 1 => if s[i]? = some 'C' then (i : Int) else scanBackForC s f (i - 1)

/-- `c104Index`: only attempted when the FR4 motif was found; searches
backward from immediately before the motif start down to
`Math.max(0, fr4Index - 25)` for the nearest `'C'`.  The loop runs
`searchEnd - searchStart` times (none when `searchEnd = 0`). -/
def c104IndexOf (s : List Char) : Int :=
  let fr4Index := fr4IndexOf s
  if fr4Index = -1 then -1
  else
    let searchEnd := fr4Index.toNat
    let searchStart := (fr4Index - 25).toNat
    scanBackForC s (searchEnd - searchStart) (searchEnd - 1)

/-- `c23Index`: the first `'C'` of the sequence, rejected (reset to `-1`)
when its index exceeds 30. -/
def c23IndexOf (s : List Char) : Int :=
  let c23Index := jsIndexOfChar s 'C'
  if c23Index > 30 then -1 else c23Index

/-- The forward scan of the `w41Index` search:
`for (let i = c23Index + 10; i < c23Index + 25; i++)` returning the first
`'W'`; reading `sequence[i]` past the end yields `undefined`, which never
equals `'W'`.  `fuel` is the number of iterations still to run. -/
def findWFrom (s : List Char) (fuel i : Nat) : Int :=
  match fuel with
  | 0 => -1
  | f + 1 => if s[i]? = some 'W' then (i : Int) else findWFrom s f (i + 1)

/-- `w41Index`: only attempted when `c23Index` was found; the first `'W'`
in the window `[c23Index + 10, c23Index + 25)` — fifteen loop
iterations. -/
def w41IndexOf (s : List Char) : Int :=
  let c23Index := c23IndexOf s
  if c23Index = -1 then -1
  else findWFrom s 15 (c23Index.toNat + 10)

/-- `hasAnchors`: all four anchors present. -/
def hasAnchors (s : List Char) : Bool :=
  decide (c23IndexOf s ≠ -1) && decide (w41IndexOf s ≠ -1) &&
    decide (c104IndexOf s ≠ -1) && decide (fr4IndexOf s ≠ -1)

/-- The boundary calculator of `analyzeSequence`.  With the scheme
restricted to the three accepted values, every branch overwrites all six
fields of the source's default record `{26, 38, 55, 65, 104, 117}`, so the
defaults never surface.  In the fallback branch
`Math.floor(k * (len / 120))` agrees with exact rational floor division
for every sequence length, and `cdr3_end = len - 11` is taken verbatim,
without any clamping. -/
def computeBounds (sequence : List Char) (scheme : Scheme) : Bounds :=
  let len := sequence.length
  let c23Index := c23IndexOf sequence
  let w41Index := w41IndexOf sequence
  let c104Index := c104IndexOf sequence
  let fr4Index := fr4IndexOf sequence
  if hasAnchors sequence then
    match scheme with
    | .IMGT =>
      { fr1_end := c23Index + 4
        cdr1_end := w41Index - 2
        fr2_end := w41Index + 14
        cdr2_end := (w41Index + 14) + 10
        fr3_end := c104Index + 1
        cdr3_end := fr4Index }
    | .Kabat =>
      { fr1_end := c23Index + 7
        cdr1_end := w41Index - 4
        fr2_end := w41Index + 9
        cdr2_end := w41Index + 24
        fr3_end := c104Index + 3
        cdr3_end := fr4Index }
    | .Chothia =>
      { fr1_end := c23Index + 4
        cdr1_end := w41Index - 6
        fr2_end := w41Index + 11
        cdr2_end := w41Index + 17
        fr3_end := c104Index + 3
        cdr3_end := fr4Index }
  else
    { fr1_end := ((26 * len) / 120 : Nat)
      cdr1_end := ((38 * len) / 120 : Nat)
      fr2_end := ((55 * len) / 120 : Nat)
      cdr2_end := ((65 * len) / 120 : Nat)
      fr3_end := ((104 * len) / 120 : Nat)
      cdr3_end := (len : Int) - 11 }

/-- The confidence score: `0.95` in the anchored branch, `0.4` in the
fallback branch. -/
def scoreOf (s : List Char) : ℚ :=
  if hasAnchors s then 0.95 else 0.4

/-- The fallback branch's single reasoning message. -/
def ambiguousAnchorsMsg : String :=
  "Structural anchors were ambiguous. Falling back to statistical length models."

/-- The reasoning trail: four anchor messages in the anchored branch, the
ambiguity message in the fallback branch. -/
def reasoningOf (s : List Char) : List String :=
  let c23Index := c23IndexOf s
  let w41Index := w41IndexOf s
  let c104Index := c104IndexOf s
  let fr4Index := fr4IndexOf s
  if hasAnchors s then
    [s!"Identified conserved Cysteine (C23) at pos {c23Index + 1}.",
     s!"Identified conserved Tryptophan (W41) at pos {w41Index + 1}.",
     s!"Identified 2nd Cysteine (C104) at pos {c104Index + 1} bounding FR3.",
     s!"Identified J-region motif ({String.mk (jsSubstring s fr4Index (fr4Index + 4))}) at pos {fr4Index + 1}."]
  else
    [ambiguousAnchorsMsg]

/-- The mutable state threaded through the source's seven `addRegion`
calls. -/
structure AnnState where
  regions : List Region
  numbering : List NumberingItem
deriving DecidableEq

/-- The numbering entries appended by one `addRegion` call:
`for (let i = start; i < end; i++)` pushing
`{index: i + 1, aa: sequence[i], region: type, color}`. -/
def numberingItems (sequence : List Char) (start end_ : Int)
    (type color : String) : List NumberingItem :=
  (List.range (end_ - start).toNat).map fun (k : Nat) =>
    { index := start + (k : Int) + 1
      aa := charAt? sequence (start + (k : Int))
      region := type
      color := color }

/-- The source's `addRegion` closure: skip when `start >= len`, clamp `end`
to `len`, force `end = start` when `start >= end`, then record the region
and its numbering entries. -/
def addRegion (sequence : List Char) (st : AnnState) (start end_ : Int)
    (type color name : String) : AnnState :=
  let len : Int := sequence.length
  if start ≥ len then st
  else
    let end₁ := if end_ > len then len else end_
    let end₂ := if start ≥ end₁ then start else end₁
    let regionSeq := jsSubstring sequence start end₂
    { regions := st.regions ++
        [{ type := type, start := start, «end» := end₂, seq := regionSeq,
           color := color, name := name }]
      numbering := st.numbering ++ numberingItems sequence start end₂ type color }

/-- The seven `addRegion` calls of the region segmenter, with
`current = previous bound` threaded between them exactly as in the
source. -/
def buildState (sequence : List Char) (bounds : Bounds) : AnnState :=
  let st0 : AnnState := { regions := [], numbering := [] }
  let st1 := addRegion sequence st0 0 bounds.fr1_end "FR1" "bg-slate-300" "Framework 1"
  let st2 := addRegion sequence st1 bounds.fr1_end bounds.cdr1_end "CDR1" "bg-red-400" "CDR 1"
  let st3 := addRegion sequence st2 bounds.cdr1_end bounds.fr2_end "FR2" "bg-slate-300" "Framework 2"
  let st4 := addRegion sequence st3 bounds.fr2_end bounds.cdr2_end "CDR2" "bg-green-400" "CDR 2"
  let st5 := addRegion sequence st4 bounds.cdr2_end bounds.fr3_end "FR3" "bg-slate-300" "Framework 3"
  let st6 := addRegion sequence st5 bounds.fr3_end bounds.cdr3_end "CDR3" "bg-blue-500" "CDR 3"
  addRegion sequence st6 bounds.cdr3_end (sequence.length : Int) "FR4" "bg-slate-300" "Framework 4"

/-- The body of `analyzeSequence` after the cleaning step. -/
def analyzeCleaned (sequence : List Char) (scheme : Scheme) : AnalysisResult :=
  let bounds := computeBounds sequence scheme
  let st := buildState sequence bounds
  { regions := st.regions
    numbering := st.numbering
    score := scoreOf sequence
    reasoning := reasoningOf sequence
    sequence := sequence
    scheme := scheme }

/-- `analyzeSequence(seq, scheme)`: normalize the raw input, then run the
annotator on the cleaned sequence. -/
def analyzeSequence (seq : List Char) (scheme : Scheme) : AnalysisResult :=
  analyzeCleaned (cleanSeq seq) scheme

/-- One row of the `AMINO_ACID_PROPERTIES` table. -/
structure AminoAcidProps where
  hydro : ℚ
  charge : ℚ
  mass : ℚ
  category : String

/-- The amino-acid property table of `aminoAcidProperties.ts`; lookup of a
letter outside the table yields `none` (JavaScript `undefined`). -/
def AMINO_ACID_PROPERTIES (c : Char) : Option AminoAcidProps :=
  match c with
  | 'A' => some { hydro := 1.8, charge := 0, mass := 89, category := "Nonpolar" }
  | 'R' => some { hydro := -4.5, charge := 1, mass := 174, category := "Positive" }
  | 'N' => some { hydro := -3.5, charge := 0, mass := 132, category := "Polar" }
  | 'D' => some { hydro := -3.5, charge := -1, mass := 133, category := "Negative" }
  | 'C' => some { hydro := 2.5, charge := 0, mass := 121, category := "Polar" }
  | 'Q' => some { hydro := -3.5, charge := 0, mass := 146, category := "Polar" }
  | 'E' => some { hydro := -3.5, charge := -1, mass := 147, category := "Negative" }
  | 'G' => some { hydro := -0.4, charge := 0, mass := 75, category := "Nonpolar" }
  | 'H' => some { hydro := -3.2, charge := 0.5, mass := 155, category := "Positive" }
  | 'I' => some { hydro := 4.5, charge := 0, mass := 131, category := "Nonpolar" }
  | 'L' => some { hydro := 3.8, charge := 0, mass := 131, category := "Nonpolar" }
  | 'K' => some { hydro := -3.9, charge := 1, mass := 146, category := "Positive" }
  | 'M' => some { hydro := 1.9, charge := 0, mass := 149, category := "Nonpolar" }
  | 'F' => some { hydro := 2.8, charge := 0, mass := 165, category := "Nonpolar" }
  | 'P' => some { hydro := -1.6, charge := 0, mass := 115, category := "Nonpolar" }
  | 'S' => some { hydro := -0.8, charge := 0, mass := 105, category := "Polar" }
  | 'T' => some { hydro := -0.7, charge := 0, mass := 119, category := "Polar" }
  | 'W' => some { hydro := -0.9, charge := 0, mass := 204, category := "Nonpolar" }
  | 'Y' => some { hydro := -1.3, charge := 0, mass := 181, category := "Polar" }
  | 'V' => some { hydro := 4.2, charge := 0, mass := 117, category := "Nonpolar" }
  | _ => none

/-- The `HUMAN_GERMLINES` reference table; a key outside the table has no
value (modelled as the empty sequence, which no code path reads). -/
def HUMAN_GERMLINES (key : String) : List Char :=
  match key with
  | "IGHV1-69" => "QVQLVQSGAEVKKPGSSVKVSCKASGGTFSSYAISWVRQAPGQGLEWMGGIIPIFGTANYAQKFQGRVTITADESTSTAYMELSSLRSEDTAVYYCAR".toList
  | "IGHV3-23" => "EVQLLESGGGLVQPGGSLRLSCAASGFTFSSYAMSWVRQAPGKGLEWVSAISGSGGSTYYADSVKGRFTISRDNSKNTLYLQMNSLRAEDTAVYYCAK".toList
  | "IGHV4-34" => "QVQLQQWGAGLLKPSETLSLTCAVYGGSFSGYYWSWIRQPPGKGLEWIGEINHSGSTNYNPSLKSRVTISVDTSKNQFSLKLSSVTAADTAVYYCAR".toList
  | _ => []

/-- The `RegionData` record of the humanness module. -/
structure RegionData where
  fr1 : List Char
  cdr1 : List Char
  fr2 : List Char
  cdr2 : List Char
  fr3 : List Char
  cdr3 : List Char
  fr4 : List Char
deriving DecidableEq

/-- The `HumannessAnalysis` record.  `t20` is a `ℚ`; the source formats it
with `toFixed(2)` into a string, which does not affect any claim. -/
structure HumannessAnalysis where
  identity : ℚ
  t20 : ℚ
  avgHydro : ℚ
  charge : ℚ
  isHuman : Bool
deriving DecidableEq

/-- `parseRegions`: the humanness module's simple region splitter, cutting
at fixed absolute offsets when cysteines are absent or misordered and
otherwise carving around the first cysteine, the last cysteine and the
last `"WG"`. -/
def parseRegions (seq : List Char) : RegionData :=
  let cys1Index := jsIndexOfChar seq 'C'
  let cys3Index := jsLastIndexOfChar seq 'C'
  let wgIndex := jsLastIndexOfWG seq
  if cys1Index = -1 ∨ cys3Index = -1 ∨ cys3Index ≤ cys1Index then
    let len : Int := seq.length
    { fr1 := jsSubstring seq 0 25
      cdr1 := jsSubstring seq 25 33
      fr2 := jsSubstring seq 33 50
      cdr2 := jsSubstring seq 50 58
      fr3 := jsSubstring seq 58 95
      cdr3 := jsSubstring seq 95 105
      fr4 := jsSubstring seq 105 len }
  else
    { fr1 := jsSubstring seq 0 (cys1Index + 4)
      cdr1 := jsSubstring seq (cys1Index + 4) (cys1Index + 12)
      fr2 := jsSubstring seq (cys1Index + 12) (cys1Index + 29)
      cdr2 := jsSubstring seq (cys1Index + 29) (cys3Index - 32)
      fr3 := jsSubstring seq (cys3Index - 32) (cys3Index + 3)
      cdr3 := jsSubstring seq (cys3Index + 3)
        (if wgIndex ≠ -1 then wgIndex else (seq.length : Int) - 10)
      fr4 := jsSubstring seq
        (if wgIndex ≠ -1 then wgIndex else (seq.length : Int) - 10)
        (seq.length : Int) }

/-- The compared length of the identity loop:
`Math.min(seq.length, HUMAN_GERMLINES['IGHV3-23'].length)`.  It is the
divisor of the identity computation. -/
def humannessComparedLen (seq : List Char) : Nat :=
  min seq.length (HUMAN_GERMLINES "IGHV3-23").length

/-- The identity loop of `calculateHumanness`:
`for (let i = 0; i < totalLen; i++) if (seq[i] === ref[i]) matchScore++`.
`fuel` is the number of iterations still to run, so the call
`matchScoreAux seq ref totalLen 0` visits exactly `i = 0, …,
totalLen - 1`. -/
def matchScoreAux (seq ref : List Char) (fuel i : Nat) : Nat :=
  match fuel with
  | 0 => 0
  | f + 1 => (if seq[i]? = ref[i]? then 1 else 0) + matchScoreAux seq ref f (i + 1)

/-- The hydrophobicity / charge accumulation loop of
`calculateHumanness`. -/
def hydroChargeFold (seq : List Char) : ℚ × ℚ :=
  seq.foldl
    (fun acc c =>
      match AMINO_ACID_PROPERTIES c with
      | some p => (acc.1 + p.hydro, acc.2 + p.charge)
      | none => acc)
    (0, 0)

/-- `calculateHumanness`: germline identity against `IGHV3-23`, the derived
`t20` indicator, mean hydrophobicity and net charge.  The input is used
as-is (no normalization).  On the empty sequence the source computes
`0/0` (JavaScript `NaN`) for both `identity` and `avgHydro`; in `ℚ` these
degenerate quotients evaluate to `0`. -/
def calculateHumanness (seq : List Char) : HumannessAnalysis :=
  let ref := HUMAN_GERMLINES "IGHV3-23"
  let totalLen := humannessComparedLen seq
  let matchScore := matchScoreAux seq ref totalLen 0
  let identity : ℚ := ((matchScore : ℚ) / (totalLen : ℚ)) * 100
  let t20 : ℚ := (identity - 85) / 10
  let hc := hydroChargeFold seq
  let avgHydro : ℚ := hc.1 / (seq.length : ℚ)
  { identity := identity
    t20 := t20
    avgHydro := avgHydro
    charge := hc.2
    isHuman := decide (identity > 85) }

/-! ### Normalization lemmas -/

/-- A character accepted by the cleaning filter is already uppercase, so a
second `toUpperCase` pass leaves it unchanged. -/
theorem jsToUpper_of_isLetterAZ {c : Char} (h : isLetterAZ c = true) :
    jsToUpper c = c := by
  have h' : 'A' ≤ c ∧ c ≤ 'Z' := by
    rw [isLetterAZ, Bool.and_eq_true, decide_eq_true_eq, decide_eq_true_eq] at h
    exact h
  unfold jsToUpper
  rw [if_neg]
  intro hc
  have : ('a' : Char) ≤ 'Z' := le_trans hc.1 h'.2
  revert this
  decide

/-- Every character surviving the cleaning filter satisfies the filter. -/
theorem mem_cleanSeq_isLetterAZ {c : Char} {s : List Char}
    (h : c ∈ cleanSeq s) : isLetterAZ c = true :=
  List.of_mem_filter h

/-- Cleaning is idempotent. -/
theorem cleanSeq_idem (s : List Char) : cleanSeq (cleanSeq s) = cleanSeq s := by
  have hmap : (cleanSeq s).map jsToUpper = cleanSeq s := by
    have := List.map_congr_left
      (l := cleanSeq s) (f := jsToUpper) (g := id)
      (fun c hc => jsToUpper_of_isLetterAZ (mem_cleanSeq_isLetterAZ hc))
    simpa using this
  show ((cleanSeq s).map jsToUpper).filter isLetterAZ = cleanSeq s
  rw [hmap]
  exact List.filter_eq_self.mpr fun c hc => mem_cleanSeq_isLetterAZ hc

/-- Unfolding lemma: the `identity` field of `calculateHumanness`. -/
theorem calculateHumanness_identity (s : List Char) :
    (calculateHumanness s).identity =
      ((matchScoreAux s (HUMAN_GERMLINES "IGHV3-23") (humannessComparedLen s) 0 : ℚ) /
        (humannessComparedLen s : ℚ)) * 100 := rfl

/-- Unfolding lemma: the `isHuman` field of `calculateHumanness`. -/
theorem calculateHumanness_isHuman (s : List Char) :
    (calculateHumanness s).isHuman = decide ((calculateHumanness s).identity > 85) := rfl

/-- Claim C7, counterexample: `calculateHumanness` does not normalize its
input — on the raw string `"e"` it returns a different result than on the
normalized form `"E"` (identity 0 versus 100), refuting the claim that
both exposed operations normalize before use. -/
theorem c7_counterexample :
    calculateHumanness "e".toList ≠ calculateHumanness (cleanSeq "e".toList) := by
  intro h
  have h1 : (calculateHumanness "e".toList).identity = 0 := by
    rw [calculateHumanness_identity]
    have hm : matchScoreAux "e".toList (HUMAN_GERMLINES "IGHV3-23")
        (humannessComparedLen "e".toList) 0 = 0 := by decide
    rw [hm]
    norm_num
  have h2 : (calculateHumanness (cleanSeq "e".toList)).identity = 100 := by
    rw [calculateHumanness_identity]
    have hm : matchScoreAux (cleanSeq "e".toList) (HUMAN_GERMLINES "IGHV3-23")
        (humannessComparedLen (cleanSeq "e".toList)) 0 = 1 := by decide
    have hl : humannessComparedLen (cleanSeq "e".toList) = 1 := by decide
    rw [hm, hl]
    norm_num
  rw [h, h2] at h1
  norm_num at h1

/-- Claim C7 (amended): `analyzeSequence` normalizes its input (uppercases
it and strips every character that is not a letter A–Z) before any anchor
search runs, so it returns the same result on a raw string as on its
normalized form; `calculateHumanness`, by contrast, uses its argument
as-is. -/
theorem c7_amended_normalization (seq : List Char) (scheme : Scheme) :
    analyzeSequence seq scheme = analyzeSequence (cleanSeq seq) scheme := by
  unfold analyzeSequence
  rw [cleanSeq_idem]

/-! ### Counterexamples to the unconditional coverage / numbering /
clamping claims -/

/-- Claim C1, counterexample: on the ten-residue input `"AAAAAAAAAA"` (no
anchors, fallback branch, `cdr3_end = 10 - 11 = -1`), the FR4 region is
emitted with start `-1` and its substring duplicates the whole sequence,
so the concatenation of the emitted region substrings (18 residues) does
not reconstruct the cleaned sequence (10 residues). -/
theorem c1_counterexample :
    ((analyzeSequence "AAAAAAAAAA".toList Scheme.IMGT).regions.map Region.seq).flatten ≠
      cleanSeq "AAAAAAAAAA".toList := by
  decide

/-- Claim C2, counterexample: on the ten-residue input `"LLLLLLLLLL"` the
numbering table has 19 entries, not 10 — the FR4 loop runs from the
negative start `-1` and re-numbers residues already numbered by earlier
regions. -/
theorem c2_counterexample :
    (analyzeSequence "LLLLLLLLLL".toList Scheme.Kabat).numbering.length ≠
      (cleanSeq "LLLLLLLLLL".toList).length := by
  decide

/-- Claim C3, counterexample: on the five-residue input `"AAAAA"` the
fallback branch produces `cdr3_end = 5 - 11 = -6`, which is not clamped
into `[0, length]`. -/
theorem c3_counterexample :
    ¬ (0 ≤ (computeBounds (cleanSeq "AAAAA".toList) Scheme.IMGT).cdr3_end) := by
  decide

/-! ### The region segmenter invariant -/

/-- The seven region tags, in emission order. -/
def regionTags : List String :=
  ["FR1", "CDR1", "FR2", "CDR2", "FR3", "CDR3", "FR4"]

/-- The six cut-points are non-negative, non-decreasing and bounded by the
sequence length.  The source does not guarantee this (see the
counterexamples above); it is exactly the condition under which the
segmenter's chaining covers the sequence. -/
def monotoneBounds (b : Bounds) (len : Nat) : Prop :=
  0 ≤ b.fr1_end ∧ b.fr1_end ≤ b.cdr1_end ∧ b.cdr1_end ≤ b.fr2_end ∧
    b.fr2_end ≤ b.cdr2_end ∧ b.cdr2_end ≤ b.fr3_end ∧
    b.fr3_end ≤ b.cdr3_end ∧ b.cdr3_end ≤ (len : Int)

instance (b : Bounds) (len : Nat) : Decidable (monotoneBounds b len) := by
  unfold monotoneBounds
  infer_instance

/-- Invariant carried through the seven `addRegion` calls: with cursor `c`,
the regions so far concatenate to the first `min c len` residues, and the
numbering table so far numbers exactly those residues in order with tags
from the seven region types. -/
def covInv (s : List Char) (st : AnnState) (c : Int) : Prop :=
  0 ≤ c ∧
  (st.regions.map Region.seq).flatten = s.take (min c.toNat s.length) ∧
  st.numbering.map NumberingItem.index =
    (List.range (min c.toNat s.length)).map (fun (i : Nat) => (i : Int) + 1) ∧
  st.numbering.map NumberingItem.aa = (s.take (min c.toNat s.length)).map some ∧
  ∀ e ∈ st.numbering, e.region ∈ regionTags

/-- `substring(a, a)` is empty. -/
theorem jsSubstring_self (s : List Char) (a : Int) : jsSubstring s a a = [] := by
  unfold jsSubstring
  simp only [min_self, max_self]
  exact List.drop_eq_nil_of_le (le_trans (List.length_take_le _ _) le_rfl)

/-- `substring(a, b)` for in-range `0 ≤ a ≤ b ≤ len` is the plain slice. -/
theorem jsSubstring_of_le (s : List Char) {a b : Int} (h0 : 0 ≤ a) (hab : a ≤ b)
    (hb : b ≤ (s.length : Int)) :
    jsSubstring s a b = (s.take b.toNat).drop a.toNat := by
  unfold jsSubstring
  have ha' : min (max a 0) (s.length : Int) = a := by
    rw [max_eq_left h0, min_eq_left (le_trans hab hb)]
  have hb' : min (max b 0) (s.length : Int) = b := by
    rw [max_eq_left (le_trans h0 hab), min_eq_left hb]
  simp only [ha', hb', min_eq_left hab, max_eq_right hab]

/-- Prefix glueing: `take a ++ (take b).drop a = take b` for `a ≤ b`. -/
theorem take_add_drop_take (s : List Char) {a b : Nat} (hab : a ≤ b) :
    s.take a ++ (s.take b).drop a = s.take b := by
  conv_rhs => rw [← List.take_append_drop a (s.take b)]
  rw [List.take_take, Nat.min_eq_left hab]

/-- Splitting a mapped range at `a`. -/
theorem map_range_add {α : Type} (f : Nat → α) (a n : Nat) :
    (List.range (a + n)).map f =
      (List.range a).map f ++ (List.range n).map (fun k => f (a + k)) := by
  rw [List.range_add a n, List.map_append, List.map_map]
  rfl

/-- A slice of `s`, mapped into `Option`, as a mapped range of lookups. -/
theorem slice_map_some_eq (s : List Char) {a b : Nat} (hab : a ≤ b)
    (hb : b ≤ s.length) :
    ((s.take b).drop a).map some = (List.range (b - a)).map (fun k => s[a + k]?) := by
  apply List.ext_getElem?
  intro i
  by_cases hi : i < b - a
  · have hai : a + i < b := by omega
    have hail : a + i < s.length := lt_of_lt_of_le hai hb
    have h1 : ((s.take b).drop a)[i]? = some s[a + i] := by
      rw [List.getElem?_drop, List.getElem?_take, if_pos hai]
      exact List.getElem?_eq_getElem hail
    rw [List.getElem?_map, h1, List.getElem?_map, List.getElem?_range hi]
    simp [List.getElem?_eq_getElem hail]
  · have h1 : (((s.take b).drop a).map some).length ≤ i := by
      simp only [List.length_map, List.length_drop, List.length_take]
      omega
    have h2 : ((List.range (b - a)).map (fun k => s[a + k]?)).length ≤ i := by
      simp only [List.length_map, List.length_range]
      omega
    rw [List.getElem?_eq_none h1, List.getElem?_eq_none h2]

/-- The `index` fields of one `addRegion` call's numbering entries. -/
theorem numberingItems_map_index (s : List Char) (c e : Int) (type color : String) :
    (numberingItems s c e type color).map NumberingItem.index =
      (List.range (e - c).toNat).map (fun (k : Nat) => c + (k : Int) + 1) := by
  simp only [numberingItems, List.map_map]
  rfl

/-- The `aa` fields of one `addRegion` call's numbering entries, for a
non-negative start. -/
theorem numberingItems_map_aa (s : List Char) {c : Int} (e : Int)
    (type color : String) (hc : 0 ≤ c) :
    (numberingItems s c e type color).map NumberingItem.aa =
      (List.range (e - c).toNat).map (fun (k : Nat) => s[c.toNat + k]?) := by
  simp only [numberingItems, List.map_map]
  apply List.map_congr_left
  intro k _
  show charAt? s (c + k) = s[c.toNat + k]?
  unfold charAt?
  rw [if_neg (by omega)]
  congr 1
  omega

/-- Every numbering entry emitted by one `addRegion` call carries that
call's region tag. -/
theorem numberingItems_region (s : List Char) (c e : Int) (type color : String) :
    ∀ x ∈ numberingItems s c e type color, x.region = type := by
  intro x hx
  simp only [numberingItems, List.mem_map] at hx
  obtain ⟨k, _, rfl⟩ := hx
  rfl

/-- One step of the segmenter: `addRegion` with cursor `c` and next bound
`b ≥ c` extends the invariant from cursor `c` to cursor `b`. -/
theorem addRegion_covInv (s : List Char) (st : AnnState) {c b : Int}
    (type color name : String) (htype : type ∈ regionTags) (hcb : c ≤ b)
    (h : covInv s st c) :
    covInv s (addRegion s st c b type color name) b := by
  obtain ⟨hc, hreg, hidx, haa, htags⟩ := h
  have hb : 0 ≤ b := le_trans hc hcb
  by_cases hge : c ≥ (s.length : Int)
  · have hmin : min b.toNat s.length = min c.toNat s.length := by omega
    simp only [addRegion, if_pos hge]
    exact ⟨hb, by rw [hmin]; exact hreg, by rw [hmin]; exact hidx,
      by rw [hmin]; exact haa, htags⟩
  · simp only [addRegion, if_neg hge]
    have hend1 : (if b > (s.length : Int) then (s.length : Int) else b) =
        min b (s.length : Int) := by
      split <;> omega
    rw [hend1]
    by_cases hce : c ≥ min b (s.length : Int)
    · have hbc : b = c := by omega
      subst hbc
      simp only [if_pos hce]
      have hitems : numberingItems s b b type color = [] := by
        simp [numberingItems]
      rw [jsSubstring_self, hitems]
      refine ⟨hb, ?_, ?_, ?_, ?_⟩
      · simp only [List.map_append, List.flatten_append, List.map_cons,
          List.map_nil, List.flatten_cons, List.flatten_nil, List.append_nil]
        exact hreg
      · simpa using hidx
      · simpa using haa
      · intro e he
        rw [List.append_nil] at he
        exact htags e he
    · simp only [if_neg hce]
      have hclt : c < min b (s.length : Int) := lt_of_not_ge hce
      have ha0 : min c.toNat s.length = c.toNat := by omega
      have hb0 : min b.toNat s.length = (min b (s.length : Int)).toNat := by omega
      have hab : c.toNat ≤ (min b (s.length : Int)).toNat := by omega
      have hbl : (min b (s.length : Int)).toNat ≤ s.length := by omega
      have hsub : jsSubstring s c (min b (s.length : Int)) =
          (s.take (min b (s.length : Int)).toNat).drop c.toNat :=
        jsSubstring_of_le s hc (le_of_lt hclt) (min_le_right _ _)
      have hn : (min b (s.length : Int) - c).toNat =
          (min b (s.length : Int)).toNat - c.toNat := by omega
      have hsplit : (min b (s.length : Int)).toNat =
          c.toNat + ((min b (s.length : Int)).toNat - c.toNat) := by omega
      refine ⟨hb, ?_, ?_, ?_, ?_⟩
      · simp only [List.map_append, List.flatten_append, List.map_cons,
          List.map_nil, List.flatten_cons, List.flatten_nil, List.append_nil]
        rw [hreg, ha0, hsub, hb0, take_add_drop_take s hab]
      · rw [List.map_append, hidx, numberingItems_map_index, ha0, hb0, hn]
        conv_rhs => rw [hsplit, map_range_add]
        congr 1
        apply List.map_congr_left
        intro k _
        push_cast
        omega
      · rw [List.map_append, haa, numberingItems_map_aa s _ type color hc, ha0, hb0, hn]
        have hsplit2 : s.take (min b (s.length : Int)).toNat =
            s.take c.toNat ++ (s.take (min b (s.length : Int)).toNat).drop c.toNat :=
          (take_add_drop_take s hab).symm
        conv_rhs => rw [hsplit2, List.map_append]
        congr 1
        exact (slice_map_some_eq s hab hbl).symm
      · intro e he
        rcases List.mem_append.mp he with h1 | h2
        · exact htags e h1
        · rw [numberingItems_region s c (min b (s.length : Int)) type color e h2]
          exact htype

/-- Chaining the seven `addRegion` calls: when the six cut-points are
non-negative, non-decreasing and bounded by the length, the final state
satisfies the invariant at cursor `length`. -/
theorem buildState_covInv (s : List Char) (bd : Bounds)
    (h : monotoneBounds bd s.length) :
    covInv s (buildState s bd) (s.length : Int) := by
  obtain ⟨h1, h2, h3, h4, h5, h6, h7⟩ := h
  have hinit : covInv s { regions := [], numbering := [] } 0 := by
    refine ⟨le_rfl, ?_, ?_, ?_, ?_⟩ <;> simp [covInv]
  unfold buildState
  exact addRegion_covInv s _ _ _ _ (by simp [regionTags]) h7
    (addRegion_covInv s _ _ _ _ (by simp [regionTags]) h6
      (addRegion_covInv s _ _ _ _ (by simp [regionTags]) h5
        (addRegion_covInv s _ _ _ _ (by simp [regionTags]) h4
          (addRegion_covInv s _ _ _ _ (by simp [regionTags]) h3
            (addRegion_covInv s _ _ _ _ (by simp [regionTags]) h2
              (addRegion_covInv s _ _ _ _ (by simp [regionTags]) h1 hinit))))))

/-- Claim C1 (amended): whenever the six computed cut-points are
non-negative, non-decreasing and bounded by the cleaned length — which the
code does not guarantee in general (see `c1_counterexample`) — the
concatenation, in order, of the substrings of all regions emitted by
`analyzeSequence` (regions with start at or beyond the cleaned length
being skipped) equals the cleaned sequence exactly. -/
theorem c1_amended_coverage (raw : List Char) (scheme : Scheme)
    (h : monotoneBounds (computeBounds (cleanSeq raw) scheme) (cleanSeq raw).length) :
    ((analyzeSequence raw scheme).regions.map Region.seq).flatten = cleanSeq raw := by
  have hinv := buildState_covInv (cleanSeq raw) (computeBounds (cleanSeq raw) scheme) h
  have hreg := hinv.2.1
  simp only [Int.toNat_natCast, min_self, List.take_length] at hreg
  exact hreg

/-- Closed instance of `c1_amended_coverage` at the 84-residue input
`'A' * 84` (fallback branch, cut-points 18, 26, 38, 45, 72, 73). -/
theorem c1_witness :
    ((analyzeSequence (List.replicate 84 'A') Scheme.IMGT).regions.map Region.seq).flatten =
      cleanSeq (List.replicate 84 'A') :=
  c1_amended_coverage (List.replicate 84 'A') Scheme.IMGT (by decide)

/-- Claim C2 (amended): whenever the six computed cut-points are
non-negative, non-decreasing and bounded by the cleaned length — which the
code does not guarantee in general (see `c2_counterexample`) — the
numbering table has exactly one entry per residue of the cleaned
sequence: its `i`-th entry (1-based) has `index` field `i`, carries the
`i`-th residue, and is tagged with one of the seven region types. -/
theorem c2_amended_numbering (raw : List Char) (scheme : Scheme)
    (h : monotoneBounds (computeBounds (cleanSeq raw) scheme) (cleanSeq raw).length) :
    (analyzeSequence raw scheme).numbering.length = (cleanSeq raw).length ∧
    (analyzeSequence raw scheme).numbering.map NumberingItem.index =
      (List.range (cleanSeq raw).length).map (fun (i : Nat) => (i : Int) + 1) ∧
    (analyzeSequence raw scheme).numbering.map NumberingItem.aa =
      (cleanSeq raw).map some ∧
    ∀ e ∈ (analyzeSequence raw scheme).numbering, e.region ∈ regionTags := by
  have hinv := buildState_covInv (cleanSeq raw) (computeBounds (cleanSeq raw) scheme) h
  obtain ⟨-, -, hidx, haa, htags⟩ := hinv
  simp only [Int.toNat_natCast, min_self, List.take_length] at hidx haa
  refine ⟨?_, hidx, haa, htags⟩
  have := congrArg List.length haa
  simpa using this

/-- Closed instance of `c2_amended_numbering` at the 96-residue input
`'G' * 96` (fallback branch, cut-points 20, 30, 44, 52, 83, 85). -/
theorem c2_witness :
    (analyzeSequence (List.replicate 96 'G') Scheme.Kabat).numbering.length =
      (cleanSeq (List.replicate 96 'G')).length :=
  (c2_amended_numbering (List.replicate 96 'G') Scheme.Kabat (by decide)).1

/-- Claim C3 (amended): the source applies no clamping to the computed
cut-points (see `c3_counterexample`).  What does hold: in the fallback
branch the five scaled cut-points are non-negative, non-decreasing and at
most the length, while `cdr3_end` equals `length - 11` exactly, without
any clamp to `≥ 0` (it is negative whenever the length is below 11).  In
the anchored branch no monotonicity is guaranteed. -/
theorem c3_amended_fallback_bounds (s : List Char) (scheme : Scheme)
    (h : hasAnchors s = false) :
    0 ≤ (computeBounds s scheme).fr1_end ∧
    (computeBounds s scheme).fr1_end ≤ (computeBounds s scheme).cdr1_end ∧
    (computeBounds s scheme).cdr1_end ≤ (computeBounds s scheme).fr2_end ∧
    (computeBounds s scheme).fr2_end ≤ (computeBounds s scheme).cdr2_end ∧
    (computeBounds s scheme).cdr2_end ≤ (computeBounds s scheme).fr3_end ∧
    (computeBounds s scheme).fr3_end ≤ (s.length : Int) ∧
    (computeBounds s scheme).cdr3_end = (s.length : Int) - 11 := by
  simp only [computeBounds, h, Bool.false_eq_true, if_false]
  refine ⟨?_, ?_, ?_, ?_, ?_, ?_, ?_⟩ <;> first | trivial | omega

/-- Closed instance of `c3_amended_fallback_bounds` at the five-residue
input `"AAAAA"` (cut-points 1, 1, 2, 2, 4 and `cdr3_end = -6`). -/
theorem c3_witness :
    0 ≤ (computeBounds (cleanSeq "AAAAA".toList) Scheme.IMGT).fr1_end ∧
    (computeBounds (cleanSeq "AAAAA".toList) Scheme.IMGT).fr1_end ≤
      (computeBounds (cleanSeq "AAAAA".toList) Scheme.IMGT).cdr1_end ∧
    (computeBounds (cleanSeq "AAAAA".toList) Scheme.IMGT).cdr1_end ≤
      (computeBounds (cleanSeq "AAAAA".toList) Scheme.IMGT).fr2_end ∧
    (computeBounds (cleanSeq "AAAAA".toList) Scheme.IMGT).fr2_end ≤
      (computeBounds (cleanSeq "AAAAA".toList) Scheme.IMGT).cdr2_end ∧
    (computeBounds (cleanSeq "AAAAA".toList) Scheme.IMGT).cdr2_end ≤
      (computeBounds (cleanSeq "AAAAA".toList) Scheme.IMGT).fr3_end ∧
    (computeBounds (cleanSeq "AAAAA".toList) Scheme.IMGT).fr3_end ≤
      ((cleanSeq "AAAAA".toList).length : Int) ∧
    (computeBounds (cleanSeq "AAAAA".toList) Scheme.IMGT).cdr3_end =
      ((cleanSeq "AAAAA".toList).length : Int) - 11 :=
  c3_amended_fallback_bounds (cleanSeq "AAAAA".toList) Scheme.IMGT (by decide)

/-- Claim C4: the confidence score is exactly 0.95 when all four anchors
are detected and exactly 0.4 otherwise; no other value occurs; the
missing-anchor case is a total, non-throwing branch that appends the
ambiguity reasoning message. -/
theorem c4_confidence_dichotomy (raw : List Char) (scheme : Scheme) :
    ((analyzeSequence raw scheme).score = 0.95 ∨
      (analyzeSequence raw scheme).score = 0.4) ∧
    ((analyzeSequence raw scheme).score = 0.95 ↔ hasAnchors (cleanSeq raw) = true) ∧
    (hasAnchors (cleanSeq raw) = false →
      ambiguousAnchorsMsg ∈ (analyzeSequence raw scheme).reasoning) := by
  have hscore : (analyzeSequence raw scheme).score = scoreOf (cleanSeq raw) := rfl
  have hreason : (analyzeSequence raw scheme).reasoning = reasoningOf (cleanSeq raw) := rfl
  by_cases h : hasAnchors (cleanSeq raw) = true
  · rw [hscore, hreason]
    have hs : scoreOf (cleanSeq raw) = 0.95 := by simp [scoreOf, h]
    refine ⟨Or.inl hs, by simp [hs, h], ?_⟩
    intro hfalse
    rw [h] at hfalse
    exact absurd hfalse (by simp)
  · have h' : hasAnchors (cleanSeq raw) = false := by
      simpa using h
    rw [hscore, hreason]
    have hs : scoreOf (cleanSeq raw) = 0.4 := by simp [scoreOf, h']
    refine ⟨Or.inr hs, ?_, ?_⟩
    · rw [hs, h']
      constructor
      · intro habs
        exact absurd habs (by norm_num)
      · intro habs
        exact absurd habs (by simp)
    · intro _
      simp [reasoningOf, h', ambiguousAnchorsMsg]

/-- Closed instance of `c4_confidence_dichotomy`: on the anchor-free input
`"QQQQQ"` the fallback reasoning message is emitted. -/
theorem c4_witness :
    ambiguousAnchorsMsg ∈ (analyzeSequence "QQQQQ".toList Scheme.Chothia).reasoning :=
  (c4_confidence_dichotomy "QQQQQ".toList Scheme.Chothia).2.2 (by decide)

/-- Claim C5: with all four anchors present, the cut-points are the anchor
positions plus the fixed per-scheme offsets: IMGT
`(cys1+4, trp41-2, trp41+14, fr2_end+10, cys104+1, fr4Start)`, Kabat
`(cys1+7, trp41-4, trp41+9, trp41+24, cys104+3, fr4Start)`, Chothia
`(cys1+4, trp41-6, trp41+11, trp41+17, cys104+3, fr4Start)`. -/
theorem c5_anchored_offsets (s : List Char) (h : hasAnchors s = true) :
    computeBounds s Scheme.IMGT =
      { fr1_end := c23IndexOf s + 4
        cdr1_end := w41IndexOf s - 2
        fr2_end := w41IndexOf s + 14
        cdr2_end := (w41IndexOf s + 14) + 10
        fr3_end := c104IndexOf s + 1
        cdr3_end := fr4IndexOf s } ∧
    computeBounds s Scheme.Kabat =
      { fr1_end := c23IndexOf s + 7
        cdr1_end := w41IndexOf s - 4
        fr2_end := w41IndexOf s + 9
        cdr2_end := w41IndexOf s + 24
        fr3_end := c104IndexOf s + 3
        cdr3_end := fr4IndexOf s } ∧
    computeBounds s Scheme.Chothia =
      { fr1_end := c23IndexOf s + 4
        cdr1_end := w41IndexOf s - 6
        fr2_end := w41IndexOf s + 11
        cdr2_end := w41IndexOf s + 17
        fr3_end := c104IndexOf s + 3
        cdr3_end := fr4IndexOf s } := by
  refine ⟨?_, ?_, ?_⟩ <;> simp [computeBounds, h]

/-- Closed instance of `c5_anchored_offsets` at the 20-residue anchored
input `"CAAAAAAAAAWAACAWGAGA"` (cys1 = 0, trp41 = 10, cys104 = 13,
fr4 motif at 15). -/
theorem c5_witness :
    computeBounds "CAAAAAAAAAWAACAWGAGA".toList Scheme.IMGT =
      { fr1_end := c23IndexOf "CAAAAAAAAAWAACAWGAGA".toList + 4
        cdr1_end := w41IndexOf "CAAAAAAAAAWAACAWGAGA".toList - 2
        fr2_end := w41IndexOf "CAAAAAAAAAWAACAWGAGA".toList + 14
        cdr2_end := (w41IndexOf "CAAAAAAAAAWAACAWGAGA".toList + 14) + 10
        fr3_end := c104IndexOf "CAAAAAAAAAWAACAWGAGA".toList + 1
        cdr3_end := fr4IndexOf "CAAAAAAAAAWAACAWGAGA".toList } :=
  (c5_anchored_offsets "CAAAAAAAAAWAACAWGAGA".toList (by decide)).1

/-! ### Safety of the segmenter and the humanness divisors -/

/-- Safety of one emitted region: its recorded `start` does not exceed its
recorded (clamped) `end`, the `end` stays within the sequence length, and
its substring is a contiguous slice of the sequence. -/
def regSafe (s : List Char) (r : Region) : Prop :=
  r.start ≤ r.«end» ∧ r.«end» ≤ (s.length : Int) ∧
    ∃ a n, r.seq = (s.drop a).take n

/-- `substring` always yields a contiguous slice. -/
theorem jsSubstring_slice (s : List Char) (a b : Int) :
    ∃ lo n, jsSubstring s a b = (s.drop lo).take n := by
  unfold jsSubstring
  refine ⟨(min (min (max a 0) (s.length : Int)) (min (max b 0) (s.length : Int))).toNat,
    (max (min (max a 0) (s.length : Int)) (min (max b 0) (s.length : Int))).toNat -
      (min (min (max a 0) (s.length : Int)) (min (max b 0) (s.length : Int))).toNat, ?_⟩
  rw [List.drop_take]

/-- One `addRegion` call preserves region safety. -/
theorem addRegion_regSafe (s : List Char) (st : AnnState) (c b : Int)
    (type color name : String) (h : ∀ r ∈ st.regions, regSafe s r) :
    ∀ r ∈ (addRegion s st c b type color name).regions, regSafe s r := by
  unfold addRegion
  by_cases hge : c ≥ (s.length : Int)
  · rw [if_pos hge]
    exact h
  · rw [if_neg hge]
    have hend1 : (if b > (s.length : Int) then (s.length : Int) else b) =
        min b (s.length : Int) := by
      split <;> omega
    rw [hend1]
    intro r hr
    simp only [List.mem_append, List.mem_singleton] at hr
    rcases hr with hold | rfl
    · exact h r hold
    · unfold regSafe
      dsimp only
      refine ⟨?_, ?_, jsSubstring_slice s c _⟩
      · split <;> omega
      · split <;> omega

/-- Claim C9 (amended): `analyzeSequence` and `calculateHumanness` are
total functions (no exception path exists); every region emitted by
`analyzeSequence` satisfies `start ≤ end ≤ cleaned length` with a
substring that is a contiguous in-bounds slice; and the two divisors of
`calculateHumanness` (the compared length and the sequence length) are
nonzero for every nonempty input — but on the empty sequence both are
zero and the source does divide by them (JavaScript `NaN`), so the
original "no division whose divisor is zero" clause fails there (see
`c9_counterexample`). -/
theorem c9_amended_safety :
    (∀ (raw : List Char) (scheme : Scheme),
      ∀ r ∈ (analyzeSequence raw scheme).regions, regSafe (cleanSeq raw) r) ∧
    (∀ s : List Char, s ≠ [] → humannessComparedLen s ≠ 0 ∧ s.length ≠ 0) := by
  constructor
  · intro raw scheme
    show ∀ r ∈ (buildState (cleanSeq raw) _).regions, regSafe (cleanSeq raw) r
    unfold buildState
    apply addRegion_regSafe
    apply addRegion_regSafe
    apply addRegion_regSafe
    apply addRegion_regSafe
    apply addRegion_regSafe
    apply addRegion_regSafe
    apply addRegion_regSafe
    intro r hr
    exact absurd hr (List.not_mem_nil r)
  · intro s hs
    have hlen : 0 < s.length := List.length_pos.mpr hs
    have href : (HUMAN_GERMLINES "IGHV3-23").length = 98 := by decide
    unfold humannessComparedLen
    omega

/-- Claim C9, counterexample: on the empty sequence the divisor of the
identity computation in `calculateHumanness` — the compared length
`min(len, len(reference))` — is zero (and so is the `avgHydro` divisor,
the sequence length), so the code does perform divisions with divisor
zero on this degenerate input. -/
theorem c9_counterexample :
    humannessComparedLen ([] : List Char) = 0 ∧ ([] : List Char).length = 0 := by
  decide

/-- Closed instance of `c9_amended_safety`: the FR1 region emitted for the
input `"AB"` is safe, and the divisors for the one-residue input `"A"`
are nonzero. -/
theorem c9_witness :
    regSafe (cleanSeq "AB".toList)
      { type := "FR1", start := 0, «end» := 0, seq := [],
        color := "bg-slate-300", name := "Framework 1" } ∧
    (humannessComparedLen ['A'] ≠ 0 ∧ (['A'] : List Char).length ≠ 0) :=
  ⟨c9_amended_safety.1 "AB".toList Scheme.IMGT _ (by decide),
    c9_amended_safety.2 ['A'] (by decide)⟩

/-- The identity loop counts exactly the positions (in its window) where
the sequence agrees with the reference. -/
theorem matchScoreAux_eq_countP (seq ref : List Char) :
    ∀ fuel i : Nat,
      matchScoreAux seq ref fuel i =
        (List.range' i fuel).countP (fun j => decide (seq[j]? = ref[j]?)) := by
  intro fuel
  induction fuel with
  | zero => intro i; simp [matchScoreAux]
  | succ f ih =>
    intro i
    rw [List.range'_succ, List.countP_cons]
    simp only [matchScoreAux, ih (i + 1)]
    by_cases h : seq[i]? = ref[i]?
    · simp [h, Nat.add_comm]
    · simp [h]

set_option maxRecDepth 16000 in
/-- Claim C8: `calculateHumanness` compares its input position-by-position
against the fixed `IGHV3-23` reference over the first
`min(len, len(reference))` positions, reports
`identity = matches / compared-length * 100` (positions beyond the shorter
string are not compared), sets `isHuman` exactly when `identity > 85`, and
on the reference itself returns identity 100 and `isHuman = true`. -/
theorem c8_humanness :
    (∀ s : List Char,
      (calculateHumanness s).identity =
        (((List.range (humannessComparedLen s)).countP
            (fun j => decide (s[j]? = (HUMAN_GERMLINES "IGHV3-23")[j]?)) : ℚ) /
          (humannessComparedLen s : ℚ)) * 100 ∧
      ((calculateHumanness s).isHuman = true ↔ (calculateHumanness s).identity > 85)) ∧
    (calculateHumanness (HUMAN_GERMLINES "IGHV3-23")).identity = 100 ∧
    (calculateHumanness (HUMAN_GERMLINES "IGHV3-23")).isHuman = true := by
  have hid : ∀ s : List Char,
      (calculateHumanness s).identity =
        (((List.range (humannessComparedLen s)).countP
            (fun j => decide (s[j]? = (HUMAN_GERMLINES "IGHV3-23")[j]?)) : ℚ) /
          (humannessComparedLen s : ℚ)) * 100 := by
    intro s
    rw [calculateHumanness_identity, matchScoreAux_eq_countP, ← List.range_eq_range']
  have href : (calculateHumanness (HUMAN_GERMLINES "IGHV3-23")).identity = 100 := by
    rw [calculateHumanness_identity]
    have hm : matchScoreAux (HUMAN_GERMLINES "IGHV3-23") (HUMAN_GERMLINES "IGHV3-23")
        (humannessComparedLen (HUMAN_GERMLINES "IGHV3-23")) 0 = 98 := by decide
    have hl : humannessComparedLen (HUMAN_GERMLINES "IGHV3-23") = 98 := by decide
    rw [hm, hl]
    norm_num
  refine ⟨fun s => ⟨hid s, ?_⟩, href, ?_⟩
  · rw [calculateHumanness_isHuman, decide_eq_true_eq]
  · rw [calculateHumanness_isHuman, href, decide_eq_true_eq]
    norm_num

/-- Closed instance of `c8_humanness`: the reference germline itself is
flagged human. -/
theorem c8_witness :
    (calculateHumanness (HUMAN_GERMLINES "IGHV3-23")).isHuman = true :=
  c8_humanness.2.2

/-! ### The humanness module's region splitter -/

/-- `indexOf` never returns a value below `-1`: it is `-1` or a valid
non-negative index. -/
theorem jsIndexOfAux_eq_neg_one_or_nonneg (rest : List Char) (ch : Char) :
    ∀ i : Nat, jsIndexOfAux rest ch i = -1 ∨ 0 ≤ jsIndexOfAux rest ch i := by
  induction rest with
  | nil => intro i; left; rfl
  | cons x xs ih =>
    intro i
    simp only [jsIndexOfAux]
    split
    · right
      exact Int.natCast_nonneg i
    · exact ih (i + 1)

/-- The splitter exactly as the claim describes it: fixed absolute offsets
`0, 25, 33, 50, 58, 95, 105, length` when the sequence contains no
cysteine or its last cysteine is not after its first; otherwise regions
carved around the first cysteine, the last cysteine and the last
occurrence of `"WG"`, with `length - 10` as the FR4 start when `"WG"` is
absent. -/
def parseRegionsSpec (seq : List Char) : RegionData :=
  let firstCys := jsIndexOfChar seq 'C'
  let lastCys := jsLastIndexOfChar seq 'C'
  let lastWG := jsLastIndexOfWG seq
  if firstCys = -1 ∨ lastCys ≤ firstCys then
    { fr1 := jsSubstring seq 0 25
      cdr1 := jsSubstring seq 25 33
      fr2 := jsSubstring seq 33 50
      cdr2 := jsSubstring seq 50 58
      fr3 := jsSubstring seq 58 95
      cdr3 := jsSubstring seq 95 105
      fr4 := jsSubstring seq 105 (seq.length : Int) }
  else
    let fr4Start := if lastWG ≠ -1 then lastWG else (seq.length : Int) - 10
    { fr1 := jsSubstring seq 0 (firstCys + 4)
      cdr1 := jsSubstring seq (firstCys + 4) (firstCys + 12)
      fr2 := jsSubstring seq (firstCys + 12) (firstCys + 29)
      cdr2 := jsSubstring seq (firstCys + 29) (lastCys - 32)
      fr3 := jsSubstring seq (lastCys - 32) (lastCys + 3)
      cdr3 := jsSubstring seq (lastCys + 3) fr4Start
      fr4 := jsSubstring seq fr4Start (seq.length : Int) }

/-- Claim C10: the humanness module's `parseRegions` coincides with the
claim's description on every input — the source's extra
`lastIndexOf = -1` disjunct is redundant because `indexOf = -1` forces it
and `-1 ≤ -1` already selects the fixed-offset branch. -/
theorem c10_parse_regions (s : List Char) : parseRegions s = parseRegionsSpec s := by
  unfold parseRegions parseRegionsSpec
  by_cases h1 : jsIndexOfChar s 'C' = -1
  · rw [if_pos (Or.inl h1), if_pos (Or.inl h1)]
  · by_cases h3 : jsLastIndexOfChar s 'C' ≤ jsIndexOfChar s 'C'
    · rw [if_pos (Or.inr (Or.inr h3)), if_pos (Or.inr h3)]
    · have hc1 : 0 ≤ jsIndexOfChar s 'C' := by
        rcases jsIndexOfAux_eq_neg_one_or_nonneg s 'C' 0 with h | h
        · exact absurd h h1
        · exact h
      have h3' : ¬ (jsLastIndexOfChar s 'C' = -1) := by
        intro habs
        apply h3
        rw [habs]
        omega
      have hcode : ¬ (jsIndexOfChar s 'C' = -1 ∨ jsLastIndexOfChar s 'C' = -1 ∨
          jsLastIndexOfChar s 'C' ≤ jsIndexOfChar s 'C') := by
        push_neg
        exact ⟨h1, h3', lt_of_not_ge h3⟩
      have hspec : ¬ (jsIndexOfChar s 'C' = -1 ∨
          jsLastIndexOfChar s 'C' ≤ jsIndexOfChar s 'C') := by
        push_neg
        exact ⟨h1, lt_of_not_ge h3⟩
      rw [if_neg hcode, if_neg hspec]

/-! ### Characterization of the anchor detector -/

/-- The last element of a list is a member. -/
theorem getLast?_mem' {α : Type} : ∀ (l : List α) (a : α), l.getLast? = some a → a ∈ l
  | [], a, h => by simp at h
  | [x], a, h => by
    simp only [List.getLast?_singleton, Option.some.injEq] at h
    simp [h]
  | x :: y :: ys, a, h => by
    rw [List.getLast?_cons_cons] at h
    exact List.mem_cons_of_mem x (getLast?_mem' (y :: ys) a h)

/-- In a strictly increasing list, the last element is the maximum. -/
theorem getLast?_max :
    ∀ {l : List Nat}, l.Pairwise (· < ·) → ∀ {m : Nat}, l.getLast? = some m →
      ∀ x ∈ l, x ≤ m
  | [], _, m, h => by simp at h
  | [x], _, m, h => by
    simp only [List.getLast?_singleton, Option.some.injEq] at h
    intro z hz
    simp only [List.mem_singleton] at hz
    omega
  | x :: y :: ys, hp, m, h => by
    rw [List.getLast?_cons_cons] at h
    have hm : m ∈ y :: ys := getLast?_mem' (y :: ys) m h
    intro z hz
    rcases List.mem_cons.mp hz with rfl | hz'
    · exact le_of_lt ((List.pairwise_cons.mp hp).1 m hm)
    · exact getLast?_max (List.pairwise_cons.mp hp).2 h z hz'

/-- The non-overlapping selection is a sublist of its input. -/
theorem scanNonOverlapping_sublist :
    ∀ (p : Nat) (l : List Nat), List.Sublist (scanNonOverlapping p l) l := by
  intro p l
  induction l generalizing p with
  | nil => simp [scanNonOverlapping]
  | cons i rest ih =>
    simp only [scanNonOverlapping]
    split
    · exact (ih (i + 4)).cons₂ i
    · exact (ih p).cons i

/-- The visited match positions are strictly increasing. -/
theorem fr4Matches_pairwise (s : List Char) : (fr4Matches s).Pairwise (· < ·) :=
  ((List.pairwise_lt_range s.length).filter (isFr4MatchAt s)).sublist
    (scanNonOverlapping_sublist 0 (allFr4MatchIndices s))

/-- Every visited match position is a genuine `[WF]G.G` match. -/
theorem fr4Matches_isMatch (s : List Char) :
    ∀ i ∈ fr4Matches s, isFr4MatchAt s i = true := by
  intro i hi
  have : i ∈ allFr4MatchIndices s :=
    (scanNonOverlapping_sublist 0 (allFr4MatchIndices s)).subset hi
  exact (List.mem_filter.mp this).2

/-- Characterization of `fr4Index`: `-1` exactly when no visited match
passes the source's double test `match.index > len * 0.7`, and otherwise
the last visited match passing it. -/
theorem fr4IndexOf_spec (s : List Char) :
    (fr4IndexOf s = -1 → ∀ j ∈ fr4Matches s, fr4PastCutoff s.length j = false) ∧
    (fr4IndexOf s ≠ -1 → ∃ i : Nat, fr4IndexOf s = (i : Int) ∧ i ∈ fr4Matches s ∧
      fr4PastCutoff s.length i = true ∧
      ∀ j ∈ fr4Matches s, fr4PastCutoff s.length j = true → j ≤ i) := by
  unfold fr4IndexOf
  cases h : ((fr4Matches s).filter (fun i => fr4PastCutoff s.length i)).getLast? with
  | none =>
    refine ⟨fun _ j hj => ?_, fun hne => absurd rfl hne⟩
    rw [Bool.eq_false_iff]
    intro hq
    have hmem : j ∈ (fr4Matches s).filter (fun i => fr4PastCutoff s.length i) :=
      List.mem_filter.mpr ⟨hj, hq⟩
    rw [List.getLast?_eq_none_iff.mp h] at hmem
    exact absurd hmem (List.not_mem_nil j)
  | some i =>
    refine ⟨fun habs => absurd habs (by simp), fun _ => ⟨i, rfl, ?_, ?_, ?_⟩⟩
    · exact (List.mem_filter.mp (getLast?_mem' _ i h)).1
    · exact (List.mem_filter.mp (getLast?_mem' _ i h)).2
    · intro j hj hq
      exact getLast?_max
        ((fr4Matches_pairwise s).filter (fun i => fr4PastCutoff s.length i)) h j
        (List.mem_filter.mpr ⟨hj, hq⟩)

/-- Characterization of the backward cysteine scan: with `fuel ≤ i + 1`
iterations it visits exactly the indices `j` with
`i + 1 ≤ j + fuel` and `j ≤ i`, returning the largest visited index
holding `'C'`, or `-1` when none does. -/
theorem scanBackForC_spec (s : List Char) :
    ∀ (fuel i : Nat), fuel ≤ i + 1 →
      (scanBackForC s fuel i = -1 →
        ∀ j : Nat, i + 1 ≤ j + fuel → j ≤ i → s[j]? ≠ some 'C') ∧
      (scanBackForC s fuel i ≠ -1 →
        ∃ k : Nat, scanBackForC s fuel i = (k : Int) ∧ i + 1 ≤ k + fuel ∧ k ≤ i ∧
          s[k]? = some 'C' ∧ ∀ j : Nat, k < j → j ≤ i → s[j]? ≠ some 'C') := by
  intro fuel
  induction fuel with
  | zero =>
    intro i _
    refine ⟨fun _ j hj1 hj2 => ?_, fun hne => absurd rfl hne⟩
    omega
  | succ f ih =>
    intro i hfi
    simp only [scanBackForC]
    by_cases hC : s[i]? = some 'C'
    · rw [if_pos hC]
      refine ⟨fun habs => absurd habs (by simp), fun _ =>
        ⟨i, rfl, by omega, le_rfl, hC, fun j hj1 hj2 => ?_⟩⟩
      omega
    · rw [if_neg hC]
      by_cases hf : f = 0
      · subst hf
        refine ⟨fun _ j hj1 hj2 => ?_, fun hne => absurd rfl hne⟩
        have : j = i := by omega
        subst this
        exact hC
      · have hf' : f ≤ (i - 1) + 1 := by omega
        obtain ⟨hneg, hpos⟩ := ih (i - 1) hf'
        constructor
        · intro hres j hj1 hj2
          by_cases hji : j = i
          · subst hji
            exact hC
          · exact hneg hres j (by omega) (by omega)
        · intro hres
          obtain ⟨k, hk, hk1, hk2, hk3, hk4⟩ := hpos hres
          refine ⟨k, hk, by omega, by omega, hk3, fun j hj1 hj2 => ?_⟩
          by_cases hji : j = i
          · subst hji
            exact hC
          · exact hk4 j hj1 (by omega)

/-- Characterization of the forward tryptophan scan: `fuel` iterations
starting at `i` visit exactly the window `[i, i + fuel)`, returning the
first index holding `'W'`, or `-1` when none does. -/
theorem findWFrom_spec (s : List Char) :
    ∀ (fuel i : Nat),
      (findWFrom s fuel i = -1 →
        ∀ j : Nat, i ≤ j → j < i + fuel → s[j]? ≠ some 'W') ∧
      (findWFrom s fuel i ≠ -1 →
        ∃ k : Nat, findWFrom s fuel i = (k : Int) ∧ i ≤ k ∧ k < i + fuel ∧
          s[k]? = some 'W' ∧ ∀ j : Nat, i ≤ j → j < k → s[j]? ≠ some 'W') := by
  intro fuel
  induction fuel with
  | zero =>
    intro i
    refine ⟨fun _ j hj1 hj2 => ?_, fun hne => absurd rfl hne⟩
    omega
  | succ f ih =>
    intro i
    simp only [findWFrom]
    by_cases hW : s[i]? = some 'W'
    · rw [if_pos hW]
      refine ⟨fun habs => absurd habs (by simp), fun _ =>
        ⟨i, rfl, le_rfl, by omega, hW, fun j hj1 hj2 => ?_⟩⟩
      omega
    · rw [if_neg hW]
      obtain ⟨hneg, hpos⟩ := ih (i + 1)
      constructor
      · intro hres j hj1 hj2
        by_cases hji : j = i
        · subst hji
          exact hW
        · exact hneg hres j (by omega) (by omega)
      · intro hres
        obtain ⟨k, hk, hk1, hk2, hk3, hk4⟩ := hpos hres
        refine ⟨k, hk, by omega, by omega, hk3, fun j hj1 hj2 => ?_⟩
        by_cases hji : j = i
        · subst hji
          exact hW
        · exact hk4 j (by omega) hj2

/-- Characterization of `indexOf`: `-1` exactly when the character is
absent, otherwise the offset of its first occurrence. -/
theorem jsIndexOfAux_spec (ch : Char) :
    ∀ (rest : List Char) (i : Nat),
      (jsIndexOfAux rest ch i = -1 → ∀ k : Nat, rest[k]? ≠ some ch) ∧
      (jsIndexOfAux rest ch i ≠ -1 →
        ∃ k : Nat, jsIndexOfAux rest ch i = ((i + k : Nat) : Int) ∧
          rest[k]? = some ch ∧ ∀ j : Nat, j < k → rest[j]? ≠ some ch) := by
  intro rest
  induction rest with
  | nil =>
    intro i
    refine ⟨fun _ k => ?_, fun hne => absurd rfl hne⟩
    simp
  | cons x xs ih =>
    intro i
    simp only [jsIndexOfAux]
    by_cases hx : x = ch
    · rw [if_pos hx]
      refine ⟨fun habs => absurd habs (by simp), fun _ =>
        ⟨0, by simp, by simp [hx], fun j hj => absurd hj (by omega)⟩⟩
    · rw [if_neg hx]
      obtain ⟨hneg, hpos⟩ := ih (i + 1)
      constructor
      · intro hres k
        cases k with
        | zero => simpa using hx
        | succ k' =>
          rw [List.getElem?_cons_succ]
          exact hneg hres k'
      · intro hres
        obtain ⟨k, hk, hk1, hk2⟩ := hpos hres
        refine ⟨k + 1, by rw [hk]; congr 1; omega, by simpa using hk1,
          fun j hj => ?_⟩
        cases j with
        | zero => simpa using hx
        | succ j' =>
          rw [List.getElem?_cons_succ]
          exact hk2 j' (by omega)

/-- Claim C6, counterexample: on a 90-residue sequence whose only
`[WF]G.G` match starts at index 63, the detector keeps the motif —
JavaScript computes `90 * 0.7 = 62.99999999999999`, one ulp below 63 —
even though 63 does not exceed 0.7 times the length (`630 > 630` is
false).  The claim's idealized "start index exceeds 0.7 times the
length" is therefore false of the program: by its reading this anchor
should be absent. -/
theorem c6_counterexample :
    fr4Matches (List.replicate 63 'A' ++ "WGAG".toList ++ List.replicate 23 'A') = [63] ∧
    fr4IndexOf (List.replicate 63 'A' ++ "WGAG".toList ++ List.replicate 23 'A') = 63 ∧
    ¬ (10 * 63 >
        7 * (List.replicate 63 'A' ++ "WGAG".toList ++ List.replicate 23 'A').length) := by
  refine ⟨by decide, by decide, by decide⟩

/-- Claim C6 (amended): full characterization of the anchor detector.
`fr4Index` is the last visited non-overlapping `[WF]G.G` match whose
start index passes the source's IEEE-double test
`match.index > len * 0.7` — which differs from "exceeds 0.7 times the
length" at lengths 90, 170, 180, 330, …, see `c6_counterexample` —
absent if none qualifies; `c104Index`, only attempted when the motif is
present, is the nearest `'C'` scanning backward from just before the
motif start down to at most 25 residues earlier; `c23Index` is the first
`'C'` of the sequence, accepted only at index at most 30; `w41Index`,
only attempted when `c23Index` is present, is the first `'W'` in the
window `[c23 + 10, c23 + 25)`. -/
theorem c6_anchor_detector (s : List Char) :
    (∀ i ∈ fr4Matches s, isFr4MatchAt s i = true) ∧
    (fr4IndexOf s = -1 → ∀ j ∈ fr4Matches s, fr4PastCutoff s.length j = false) ∧
    (fr4IndexOf s ≠ -1 → ∃ i : Nat, fr4IndexOf s = (i : Int) ∧ i ∈ fr4Matches s ∧
      fr4PastCutoff s.length i = true ∧
      ∀ j ∈ fr4Matches s, fr4PastCutoff s.length j = true → j ≤ i) ∧
    (fr4IndexOf s = -1 → c104IndexOf s = -1) ∧
    (∀ f : Nat, fr4IndexOf s = (f : Int) →
      (c104IndexOf s = -1 → ∀ j : Nat, f - 25 ≤ j → j < f → s[j]? ≠ some 'C') ∧
      (c104IndexOf s ≠ -1 → ∃ k : Nat, c104IndexOf s = (k : Int) ∧ f - 25 ≤ k ∧ k < f ∧
        s[k]? = some 'C' ∧ ∀ j : Nat, k < j → j < f → s[j]? ≠ some 'C')) ∧
    (c23IndexOf s = -1 → ∀ k : Nat, k ≤ 30 → s[k]? ≠ some 'C') ∧
    (c23IndexOf s ≠ -1 → ∃ k : Nat, c23IndexOf s = (k : Int) ∧ k ≤ 30 ∧
      s[k]? = some 'C' ∧ ∀ j : Nat, j < k → s[j]? ≠ some 'C') ∧
    (c23IndexOf s = -1 → w41IndexOf s = -1) ∧
    (∀ c : Nat, c23IndexOf s = (c : Int) →
      (w41IndexOf s = -1 → ∀ j : Nat, c + 10 ≤ j → j < c + 25 → s[j]? ≠ some 'W') ∧
      (w41IndexOf s ≠ -1 → ∃ k : Nat, w41IndexOf s = (k : Int) ∧ c + 10 ≤ k ∧ k < c + 25 ∧
        s[k]? = some 'W' ∧ ∀ j : Nat, c + 10 ≤ j → j < k → s[j]? ≠ some 'W')) := by
  have hc104none : fr4IndexOf s = -1 → c104IndexOf s = -1 := by
    intro h
    simp [c104IndexOf, h]
  have hc104 : ∀ f : Nat, fr4IndexOf s = (f : Int) →
      (c104IndexOf s = -1 → ∀ j : Nat, f - 25 ≤ j → j < f → s[j]? ≠ some 'C') ∧
      (c104IndexOf s ≠ -1 → ∃ k : Nat, c104IndexOf s = (k : Int) ∧ f - 25 ≤ k ∧ k < f ∧
        s[k]? = some 'C' ∧ ∀ j : Nat, k < j → j < f → s[j]? ≠ some 'C') := by
    intro f hf
    have hres : c104IndexOf s =
        scanBackForC s (f - (f - 25)) (f - 1) := by
      simp only [c104IndexOf, hf]
      rw [if_neg (by omega)]
      have h1 : ((f : Int)).toNat = f := by omega
      have h2 : ((f : Int) - 25).toNat = f - 25 := by omega
      rw [h1, h2]
    obtain ⟨hneg, hpos⟩ := scanBackForC_spec s (f - (f - 25)) (f - 1) (by omega)
    rw [hres]
    constructor
    · intro h j hj1 hj2
      exact hneg h j (by omega) (by omega)
    · intro h
      obtain ⟨k, hk, hk1, hk2, hk3, hk4⟩ := hpos h
      refine ⟨k, hk, by omega, by omega, hk3, fun j hj1 hj2 => hk4 j hj1 (by omega)⟩
  have hbase := jsIndexOfAux_spec 'C' s 0
  have hc23none : c23IndexOf s = -1 → ∀ k : Nat, k ≤ 30 → s[k]? ≠ some 'C' := by
    intro h k hk
    simp only [c23IndexOf] at h
    by_cases hidx : jsIndexOfChar s 'C' = -1
    · exact hbase.1 hidx k
    · obtain ⟨k₀, hk₀, hCk₀, hfirst⟩ := hbase.2 hidx
      have hh : jsIndexOfChar s 'C' = ((0 + k₀ : Nat) : Int) := hk₀
      by_cases h30 : jsIndexOfChar s 'C' > 30
      · exact hfirst k (by omega)
      · rw [if_neg h30] at h
        exact absurd h (by omega)
  have hc23some : c23IndexOf s ≠ -1 → ∃ k : Nat, c23IndexOf s = (k : Int) ∧ k ≤ 30 ∧
      s[k]? = some 'C' ∧ ∀ j : Nat, j < k → s[j]? ≠ some 'C' := by
    intro h
    have hidx : jsIndexOfChar s 'C' ≠ -1 := by
      intro habs
      apply h
      simp only [c23IndexOf, habs]
      rfl
    obtain ⟨k₀, hk₀, hCk₀, hfirst⟩ := hbase.2 hidx
    have hh : jsIndexOfChar s 'C' = ((0 + k₀ : Nat) : Int) := hk₀
    have h30 : ¬ (jsIndexOfChar s 'C' > 30) := by
      intro h30
      apply h
      simp only [c23IndexOf]
      rw [if_pos h30]
    refine ⟨k₀, ?_, by omega, hCk₀, fun j hj => hfirst j hj⟩
    simp only [c23IndexOf]
    rw [if_neg h30, hh]
    congr 1
    omega
  have hw41none : c23IndexOf s = -1 → w41IndexOf s = -1 := by
    intro h
    simp [w41IndexOf, h]
  have hw41 : ∀ c : Nat, c23IndexOf s = (c : Int) →
      (w41IndexOf s = -1 → ∀ j : Nat, c + 10 ≤ j → j < c + 25 → s[j]? ≠ some 'W') ∧
      (w41IndexOf s ≠ -1 → ∃ k : Nat, w41IndexOf s = (k : Int) ∧ c + 10 ≤ k ∧ k < c + 25 ∧
        s[k]? = some 'W' ∧ ∀ j : Nat, c + 10 ≤ j → j < k → s[j]? ≠ some 'W') := by
    intro c hc
    have hres : w41IndexOf s = findWFrom s 15 (c + 10) := by
      simp only [w41IndexOf, hc]
      rw [if_neg (by omega)]
      have h1 : ((c : Int)).toNat = c := by omega
      rw [h1]
    obtain ⟨hneg, hpos⟩ := findWFrom_spec s 15 (c + 10)
    rw [hres]
    constructor
    · intro h j hj1 hj2
      exact hneg h j hj1 (by omega)
    · intro h
      obtain ⟨k, hk, hk1, hk2, hk3, hk4⟩ := hpos h
      exact ⟨k, hk, hk1, by omega, hk3, fun j hj1 hj2 => hk4 j hj1 hj2⟩
  exact ⟨fr4Matches_isMatch s, (fr4IndexOf_spec s).1, (fr4IndexOf_spec s).2,
    hc104none, hc104, hc23none, hc23some, hw41none, hw41⟩

/-- Closed instance of `c6_anchor_detector` at the one-residue input
`"C"`: the first cysteine sits at index 0, within the 30-residue
acceptance window. -/
theorem c6_witness :
    ∃ k : Nat, c23IndexOf ['C'] = (k : Int) ∧ k ≤ 30 ∧
      (['C'] : List Char)[k]? = some 'C' ∧
      ∀ j : Nat, j < k → (['C'] : List Char)[j]? ≠ some 'C' :=
  (c6_anchor_detector ['C']).2.2.2.2.2.2.1 (by decide)
